import Mathlib

/-!
Verification of the execution core of `feb29/datafusion-rs` (`src/exec.rs`).

The repository ships only `src/exec.rs`; the data model (`rel.rs`), the
dataframe trait (`dataframe.rs`) and the scalar-function implementations
(`functions/math.rs`, `functions/geospatial.rs`) are referenced from
`exec.rs` but are not part of the sources.  Those parts are modelled from
the specification and each such definition says so in its doc comment.

Modelling conventions:
* Rust iterators over rows become Lean lists; an operator's `scan` becomes
  a function from the input item list to an output item list.
* A Rust `panic!` / failed `assert!` / `unwrap` / `unimplemented!` /
  out-of-bounds index is modelled by `Option`: `none` means the process
  aborted.  `Result<T, E>` becomes `Except E T`.
* `u64` field values are `Nat` (the parser enforces the `2^64` bound the
  way `str::parse::<u64>` does); `f64` values are modelled as `Rat` — the
  claims under verification never inspect floating-point arithmetic, only
  the variant structure of values.
* `HashMap` registries become association lists where an insert shadows
  earlier bindings.
-/

namespace DataFusion

/-- Modelled from the spec (the `DataType` enum lives in `rel.rs`, which is
not under `src/`): the closed set of scalar column types
{UnsignedInteger64, Double, String, Boolean, …}; the extra `ComplexType`
variant backs the geospatial point values of the function registry. -/
inductive DataType where
| UnsignedLong
| String
| Double
| Boolean
| ComplexType
deriving DecidableEq

/-- Modelled from the spec (`rel.rs` is not under `src/`): a named, typed,
nullable column. -/
structure Field where
  name : String
  data_type : DataType
  nullable : Bool
deriving DecidableEq

/-- Modelled from the spec (`rel.rs` is not under `src/`): an ordered
sequence of Fields; column order is the row's positional contract. -/
structure Schema where
  columns : List Field
deriving DecidableEq

/-- Modelled from the spec (`rel.rs` is not under `src/`): the tagged union
of runtime values {UnsignedInteger64, Double, String, Boolean, …}; the
structured `ComplexValue` variant carries the geospatial point payload.
`f64` payloads are modelled as `Rat`. -/
inductive Value where
| UnsignedLong (n : Nat)
| Double (d : Rat)
| String (s : String)
| Boolean (b : Bool)
| ComplexValue (vs : List Value)

/-- Variant index of a `Value`, used for the ordering between values of
mismatched variants (the spec leaves that ordering unspecified; we model a
derived lexicographic enum ordering over the variant listing order of the
spec). -/
def Value.idx : Value → Nat
| .UnsignedLong _ => 0
| .Double _ => 1
| .String _ => 2
| .Boolean _ => 3
| .ComplexValue _ => 4

/-- Three-way comparison on `Nat`. -/
def cmpNat (a b : Nat) : Ordering :=
  if a < b then .lt else if a = b then .eq else .gt

/-- Three-way comparison on `Rat`. -/
def cmpRat (a b : Rat) : Ordering :=
  if a < b then .lt else if a = b then .eq else .gt

/-- Three-way comparison on `String` (lexicographic). -/
def cmpStr (a b : String) : Ordering :=
  if a < b then .lt else if a = b then .eq else .gt

/-- Three-way comparison on `Bool` (`false < true`). -/
def cmpBool (a b : Bool) : Ordering :=
  match a, b with
  | false, true => .lt
  | true, false => .gt
  | _, _ => .eq

mutual

/-- Modelled from the spec (`rel.rs` is not under `src/`): `Value` supports
equality and a total ordering consistent with the underlying scalar
ordering (numeric for numbers, lexical for strings); across mismatched
variants the spec calls the ordering undefined, and we model the variant
ordering a derived `PartialOrd` would give. -/
def Value.cmp : Value → Value → Ordering
| .UnsignedLong a, .UnsignedLong b => cmpNat a b
| .Double a, .Double b => cmpRat a b
| .String a, .String b => cmpStr a b
| .Boolean a, .Boolean b => cmpBool a b
| .ComplexValue a, .ComplexValue b => Value.cmpList a b
| v, w => cmpNat v.idx w.idx

/-- Lexicographic comparison of value lists (shorter list first on a tie),
as a derived ordering on `Vec<Value>` behaves. -/
def Value.cmpList : List Value → List Value → Ordering
| [], [] => .eq
| [], _ :: _ => .lt
| _ :: _, [] => .gt
| a :: as_, b :: bs =>
  match Value.cmp a b with
  | .eq => Value.cmpList as_ bs
  | o => o

end

/-- The comparison operators of `Expr::BinaryExpr` (`rel.rs`, modelled from
the spec): {Eq, NotEq, Lt, LtEq, Gt, GtEq}. -/
inductive Operator where
| Eq
| NotEq
| Lt
| LtEq
| Gt
| GtEq
deriving DecidableEq

/-- The comparison performed by `ExecutionContext::evaluate` for a
`BinaryExpr`: each operator is a value comparison producing a boolean. -/
def applyOperator (op : Operator) (l r : Value) : Bool :=
  match op with
  | .Eq => l.cmp r == .eq
  | .NotEq => !(l.cmp r == .eq)
  | .Lt => l.cmp r == .lt
  | .LtEq => l.cmp r == .lt || l.cmp r == .eq
  | .Gt => l.cmp r == .gt
  | .GtEq => l.cmp r == .gt || l.cmp r == .eq

/-- Modelled from the spec (`rel.rs` is not under `src/`): the expression
tree — column references by index, literals, binary comparisons, scalar
function calls. -/
inductive Expr where
| TupleValue (index : Nat)
| Literal (value : Value)
| BinaryExpr (left : Expr) (op : Operator) (right : Expr)
| ScalarFunction (name : String) (args : List Expr)

/-- Modelled from the spec (`rel.rs` is not under `src/`): the logical plan
tree; every non-empty variant carries its own output schema. -/
inductive LogicalPlan where
| EmptyRelation
| TableScan (table_name : String) (schema : Schema)
| CsvFile (filename : String) (schema : Schema)
| Selection (expr : Expr) (input : LogicalPlan) (schema : Schema)
| Projection (expr : List Expr) (input : LogicalPlan) (schema : Schema)
| Limit (limit : Nat) (input : LogicalPlan) (schema : Schema)

/-- Modelled from the spec (`rel.rs` is not under `src/`): each plan node
reports the schema stored on it; the empty relation has no columns. -/
def LogicalPlan.schema : LogicalPlan → Schema
| .EmptyRelation => ⟨[]⟩
| .TableScan _ s => s
| .CsvFile _ s => s
| .Selection _ _ s => s
| .Projection _ _ s => s
| .Limit _ _ s => s

/-- A row: an ordered sequence of values positionally aligned with a
schema (modelled from the spec, `rel.rs` is not under `src/`). -/
structure Row where
  values : List Value

/-- `Row::new`. -/
def Row.new (values : List Value) : Row := ⟨values⟩

/-- `ExecutionError` from `src/exec.rs`.  The payloads of `IoError`,
`CsvError` and `ParserError` wrap foreign error types; they are modelled
as message strings. -/
inductive ExecutionError where
| IoError (msg : String)
| CsvError (msg : String)
| ParserError (msg : String)
| Custom (msg : String)
deriving DecidableEq

/-- The constructor (error kind) of an `ExecutionError`, used to state
which of the four variants an error value carries. -/
def ExecutionError.kind : ExecutionError → Nat
| .IoError _ => 0
| .CsvError _ => 1
| .ParserError _ => 2
| .Custom _ => 3

/-- ASCII lower-casing of one character (the function names involved are
ASCII, for which Rust's `to_lowercase` agrees). -/
def lowerChar (c : Char) : Char :=
  if 65 ≤ c.toNat ∧ c.toNat ≤ 90 then Char.ofNat (c.toNat + 32) else c

/-- `str::to_lowercase`, modelled character-wise over the ASCII range. -/
def lowerStr (s : String) : String := ⟨s.data.map lowerChar⟩

/-- Modelled from the spec (the `ScalarFunction` trait objects live in
`functions/`, not under `src/`): a scalar function exposes its name,
declared argument types, declared return type, and a fallible
implementation over evaluated argument values. -/
structure ScalarFunctionImpl where
  name : String
  args : List DataType
  return_type : DataType
  execute : List Value → Except String Value

/-- Modelled from the spec: the numeric floating-point square root itself
is not modelled (no claim inspects it); this stand-in only records that a
`Double` comes back. -/
def ratSqrt (d : Rat) : Rat := d

/-- Modelled from the spec (`functions/math.rs` is not under `src/`):
`sqrt` takes one numeric argument and returns a `Double`; a non-numeric
argument is an invocation error. -/
def SqrtFunction : ScalarFunctionImpl :=
  ⟨"sqrt", [DataType.Double], DataType.Double, fun vs =>
    match vs with
    | [Value.Double d] => .ok (.Double (ratSqrt d))
    | [Value.UnsignedLong n] => .ok (.Double (ratSqrt n))
    | _ => .error "unsupported arg type for sqrt"⟩

/-- Modelled from the spec (`functions/geospatial.rs` is not under
`src/`): the geospatial point constructor takes two doubles and builds a
structured point value; anything else is an invocation error. -/
def STPointFunc : ScalarFunctionImpl :=
  ⟨"st_point", [DataType.Double, DataType.Double], DataType.ComplexType, fun vs =>
    match vs with
    | [Value.Double a, Value.Double b] => .ok (.ComplexValue [.Double a, .Double b])
    | _ => .error "unsupported arg types for st_point"⟩

/-- Modelled from the spec (`functions/geospatial.rs` is not under
`src/`): the WKT formatter consumes the point value built by the point
constructor — no intermediate re-parsing — and renders it as text;
anything else is an invocation error. -/
def STAsText : ScalarFunctionImpl :=
  ⟨"st_astext", [DataType.ComplexType], DataType.String, fun vs =>
    match vs with
    | [Value.ComplexValue [Value.Double a, Value.Double b]] =>
      .ok (.String ("POINT (" ++ toString a ++ " " ++ toString b ++ ")"))
    | _ => .error "unsupported arg types for st_astext"⟩

/-- `FunctionMeta` (modelled from the spec, `rel.rs` is not under `src/`):
registry bookkeeping — name, declared argument types, declared return
type. -/
structure FunctionMeta where
  name : String
  args : List DataType
  return_type : DataType

/-- `ExecutionContext` from `src/exec.rs`: the process-level registries of
table schemas and user-defined functions.  The `HashMap`s are modelled as
association lists where the most recent insert shadows older bindings. -/
structure ExecutionContext where
  schemas : List (String × Schema)
  functions : List (String × FunctionMeta)

/-- `ExecutionContext::new`. -/
def ExecutionContext.new : ExecutionContext := ⟨[], []⟩

/-- `ExecutionContext::define_function`: stores the function's metadata
keyed by its lower-cased name. -/
def ExecutionContext.define_function (ctx : ExecutionContext)
    (func : ScalarFunctionImpl) : ExecutionContext :=
  ⟨ctx.schemas,
   (lowerStr func.name, ⟨func.name, func.args, func.return_type⟩) :: ctx.functions⟩

/-- `ExecutionContext::define_schema`. -/
def ExecutionContext.define_schema (ctx : ExecutionContext)
    (name : String) (schema : Schema) : ExecutionContext :=
  ⟨(name, schema) :: ctx.schemas, ctx.functions⟩

/-- `ExecutionContext::load_function_impl` from `src/exec.rs`: a fixed
compiled-in match on the lower-cased function name; the registered
function table is never consulted.  An unknown name is the
`Custom("Unknown function {name}")` error. -/
def ExecutionContext.load_function_impl (_ctx : ExecutionContext)
    (function_name : String) : Except ExecutionError ScalarFunctionImpl :=
  if lowerStr function_name = "sqrt" then .ok SqrtFunction
  else if lowerStr function_name = "st_point" then .ok STPointFunc
  else if lowerStr function_name = "st_astext" then .ok STAsText
  else .error (.Custom ("Unknown function " ++ function_name))

mutual

/-- `ExecutionContext::evaluate` from `src/exec.rs`: the recursive
expression interpreter.  `none` models a panic (an out-of-range column
reference); `some (.error e)` is the propagated `Err` of the Rust
`Result`. -/
def ExecutionContext.evaluate (ctx : ExecutionContext) (tuple : Row)
    (tt : Schema) : Expr → Option (Except ExecutionError Value)
| .BinaryExpr left op right =>
  match ExecutionContext.evaluate ctx tuple tt left with
  | none => none
  | some (.error e) => some (.error e)
  | some (.ok left_value) =>
    match ExecutionContext.evaluate ctx tuple tt right with
    | none => none
    | some (.error e) => some (.error e)
    | some (.ok right_value) =>
      some (.ok (.Boolean (applyOperator op left_value right_value)))
| .TupleValue index => (tuple.values[index]?).map (fun v => .ok v)
| .Literal value => some (.ok value)
| .ScalarFunction name args =>
  match ExecutionContext.evalArgs ctx tuple tt args with
  | none => none
  | some (.error e) => some (.error e)
  | some (.ok arg_values) =>
    match ExecutionContext.load_function_impl ctx name with
    | .error e => some (.error e)
    | .ok func =>
      match func.execute arg_values with
      | .ok value => some (.ok value)
      | .error _ => some (.error (.Custom "TBD"))

/-- The argument collection inside `ExecutionContext::evaluate`'s
`ScalarFunction` arm: `collect::<Result<Vec<Value>, _>>` evaluates
arguments left to right and stops at the first error. -/
def ExecutionContext.evalArgs (ctx : ExecutionContext) (tuple : Row)
    (tt : Schema) : List Expr → Option (Except ExecutionError (List Value))
| [] => some (.ok [])
| a :: rest =>
  match ExecutionContext.evaluate ctx tuple tt a with
  | none => none
  | some (.error e) => some (.error e)
  | some (.ok v) =>
    match ExecutionContext.evalArgs ctx tuple tt rest with
    | none => none
    | some (.error e) => some (.error e)
    | some (.ok vs) => some (.ok (v :: vs))

end

/-! ## The CSV scan (`CsvRelation`) -/

/-- One record as the csv reader yields it: the list of field texts
(`csv::StringRecord`, an external crate type). -/
abbrev StringRecord := List String

/-- The record stream an opened backing source yields, modelled from the
spec's backing-source contract: the csv reader (an external crate) turns a
header-less, newline-delimited, comma-delimited source into one
record-or-error per source record, in source order. -/
abbrev CsvSource := List (Except String StringRecord)

/-- An item of a relation's row sequence: `Result<Row, ExecutionError>`. -/
abbrev ScanItem := Except ExecutionError Row

/-- Digits read as a natural number (helper for the numeric field
parsers). -/
def digitsVal (l : List Char) : Nat :=
  l.foldl (fun acc c => acc * 10 + (c.toNat - 48)) 0

/-- `str::parse::<u64>` on a field text: decimal digits only, value below
`2^64` (overflow is a parse failure). -/
def parseU64 (s : String) : Option Nat :=
  if s.data ≠ [] ∧ s.data.all Char.isDigit = true ∧ digitsVal s.data < 2 ^ 64 then
    some (digitsVal s.data)
  else none

/-- Split a character list at every `'.'` (helper for the double parser). -/
def splitDot : List Char → List (List Char)
| [] => [[]]
| c :: rest =>
  let r := splitDot rest
  if c = '.' then [] :: r
  else
    match r with
    | h :: t => (c :: h) :: t
    | [] => [[c]]

/-- `str::parse::<f64>` on a field text, modelled over `Rat`: an optional
sign, integer digits, an optional fractional part.  Exponent, `inf` and
`NaN` forms, and binary rounding, are not modelled — no claim inspects
floating-point contents, only whether a parse succeeds. -/
def parseDouble (s : String) : Option Rat :=
  let (neg, body) :=
    match s.data with
    | '-' :: rest => (true, rest)
    | '+' :: rest => (false, rest)
    | l => (false, l)
  match splitDot body with
  | [ip] =>
    if ip ≠ [] ∧ ip.all Char.isDigit = true then
      some ((if neg then -1 else 1) * (digitsVal ip : Rat))
    else none
  | [ip, fp] =>
    if (ip ≠ [] ∨ fp ≠ []) ∧ ip.all Char.isDigit = true ∧ fp.all Char.isDigit = true then
      some ((if neg then -1 else 1) *
        ((digitsVal ip : Rat) + (digitsVal fp : Rat) / (10 : Rat) ^ fp.length))
    else none
  | _ => none

/-- The per-field conversion inside `CsvRelation::create_tuple`: parse the
field text according to the declared `DataType`.  `none` models the
panics: a failed `unwrap` of the parse, or the `"csv unsupported type"`
panic for any other declared type. -/
def parseField (c : Field) (s : String) : Option Value :=
  match c.data_type with
  | .UnsignedLong => (parseU64 s).map (fun n => .UnsignedLong n)
  | .String => some (.String s)
  | .Double => (parseDouble s).map (fun d => .Double d)
  | _ => none

/-- The zipped field-by-field conversion of `CsvRelation::create_tuple`
(the two lists have equal length when called, enforced by the assert). -/
def parseFields : List Field → List String → Option (List Value)
| c :: cs, s :: ss =>
  match parseField c s with
  | none => none
  | some v => (parseFields cs ss).map (fun vs => v :: vs)
| _, _ => some []

/-- `CsvRelation` from `src/exec.rs`: a backing source with a known
schema.  The opened `File` is modelled by the record stream the csv
reader produces from it. -/
structure CsvRelation where
  source : CsvSource
  schema : Schema

/-- `CsvRelation::create_tuple` from `src/exec.rs`: convert a
`StringRecord` into a `Row` using the known schema.  `none` models the
panics: the `assert_eq!` on the field count, a failed parse `unwrap`, or
an unsupported declared type.  (The Rust signature returns a `Result`,
but no error value is ever constructed — all failure paths panic.) -/
def CsvRelation.create_tuple (rel : CsvRelation) (r : StringRecord) : Option Row :=
  if rel.schema.columns.length = r.length then
    (parseFields rel.schema.columns r).map Row.new
  else none

/-- The per-record step of `CsvRelation::scan`: a reader error becomes an
`ExecutionError::CsvError` item, a record becomes the `create_tuple` row
(`none` = the panic inside `create_tuple`). -/
def CsvRelation.scanStep (rel : CsvRelation) : Except String StringRecord → Option ScanItem
| .ok record => (rel.create_tuple record).map (fun row => .ok row)
| .error e => some (.error (.CsvError e))

/-- Traversal of a record stream by `scanStep`; `none` aborts the scan at
the first panicking record. -/
def CsvRelation.scanRecords (rel : CsvRelation) : CsvSource → Option (List ScanItem)
| [] => some []
| r :: rest =>
  match rel.scanStep r with
  | none => none
  | some item => (rel.scanRecords rest).map (fun out => item :: out)

/-- `CsvRelation::scan` from `src/exec.rs`, over the whole record stream:
map `scanStep` across the source. -/
def CsvRelation.scan (rel : CsvRelation) : Option (List ScanItem) :=
  rel.scanRecords rel.source

/-! ## Filter, Project, Limit -/

/-- The predicate test inside `FilterRelation::scan`: an `Ok` row is kept
iff the predicate evaluates to `Ok(Value::Boolean(true))`; any other
evaluation outcome (an evaluation error, a non-boolean value, or an
evaluator panic) is the `"Predicate expression evaluated to non-boolean
value"` panic, modelled `none`; an error item passes the filter. -/
def filterStep (ctx : ExecutionContext) (schema : Schema) (expr : Expr) :
    ScanItem → Option Bool
| .ok tuple =>
  match ctx.evaluate tuple schema expr with
  | some (.ok (.Boolean b)) => some b
  | _ => none
| .error _ => some true

/-- `FilterRelation::scan` from `src/exec.rs`, as a function on the input
item list: keep exactly the items `filterStep` accepts, in order. -/
def FilterRelation.scanList (ctx : ExecutionContext) (schema : Schema)
    (expr : Expr) : List ScanItem → Option (List ScanItem)
| [] => some []
| t :: rest =>
  match filterStep ctx schema expr t with
  | none => none
  | some true => (FilterRelation.scanList ctx schema expr rest).map (fun out => t :: out)
  | some false => FilterRelation.scanList ctx schema expr rest

/-- The per-expression step of `ProjectRelation::scan`: a `TupleValue(i)`
is a direct positional lookup into the row (the fast path, not via the
evaluator; out of range is an index panic, `none`); any other expression
goes through `ExecutionContext::evaluate`, whose `Err` is `unwrap`ped — a
panic, `none`. -/
def projectExpr (ctx : ExecutionContext) (schema : Schema) (tuple : Row) :
    Expr → Option Value
| .TupleValue i => tuple.values[i]?
| e =>
  match ctx.evaluate tuple schema e with
  | some (.ok v) => some v
  | _ => none

/-- The expression list traversal of `ProjectRelation::scan` building one
output row's values. -/
def projectExprs (ctx : ExecutionContext) (schema : Schema) (tuple : Row) :
    List Expr → Option (List Value)
| [] => some []
| e :: es =>
  match projectExpr ctx schema tuple e with
  | none => none
  | some v => (projectExprs ctx schema tuple es).map (fun vs => v :: vs)

/-- `ProjectRelation::scan` from `src/exec.rs`, as a function on the input
item list: each `Ok` row is rebuilt through the projection expressions
(`schema` is the relation's own schema field, the one its `scan` hands to
the evaluator); an `Err` item passes through unchanged. -/
def ProjectRelation.scanList (ctx : ExecutionContext) (schema : Schema)
    (exprs : List Expr) : List ScanItem → Option (List ScanItem)
| [] => some []
| .ok tuple :: rest =>
  match projectExprs ctx schema tuple exprs with
  | none => none
  | some values =>
    (ProjectRelation.scanList ctx schema exprs rest).map
      (fun out => .ok (Row.new values) :: out)
| .error e :: rest =>
  (ProjectRelation.scanList ctx schema exprs rest).map
    (fun out => .error e :: out)

/-- `LimitRelation::scan` from `src/exec.rs`: `input.scan(ctx).take(limit)`. -/
def LimitRelation.scanList (limit : Nat) (input : List ScanItem) : List ScanItem :=
  input.take limit

/-! ## The plan compiler (`ExecutionContext::create_execution_plan`) -/

/-- The physical operator tree `create_execution_plan` builds (trait
objects `Box<SimpleRelation>` in the Rust). -/
inductive SimpleRelation where
| Csv (rel : CsvRelation)
| Filter (schema : Schema) (input : SimpleRelation) (expr : Expr)
| Project (schema : Schema) (input : SimpleRelation) (expr : List Expr)
| Limit (schema : Schema) (input : SimpleRelation) (limit : Nat)

/-- `SimpleRelation::schema`: each physical operator reports its own
schema. -/
def SimpleRelation.schema : SimpleRelation → Schema
| .Csv rel => rel.schema
| .Filter s _ _ => s
| .Project s _ _ => s
| .Limit s _ _ => s

/-- The files visible to `File::open`, as the record streams the csv
reader would produce from them; `none` is a file that fails to open
(`ExecutionError::IoError` via `?`). -/
abbrev FileSystem := String → Option CsvSource

/-- The per-expression schema recomputation in the `Projection` arm of
`create_execution_plan`: a `TupleValue(i)` contributes the input schema's
field at `i` (out of range is an index panic, `none`); a `ScalarFunction`
contributes a nullable field named after the function with the hard-coded
`DataType::Double`; any other expression is the `unimplemented!` panic. -/
def projectColumn (input_schema : Schema) : Expr → Option Field
| .TupleValue i => input_schema.columns[i]?
| .ScalarFunction name _ => some ⟨name, DataType.Double, true⟩
| _ => none

/-- The `project_columns` collection of the `Projection` arm. -/
def projectColumns (input_schema : Schema) : List Expr → Option (List Field)
| [] => some []
| e :: es =>
  match projectColumn input_schema e with
  | none => none
  | some f => (projectColumns input_schema es).map (fun fs => f :: fs)

/-- `ExecutionContext::create_execution_plan` from `src/exec.rs`: compile
a logical plan into a physical operator tree.  `none` models the panics
(`EmptyRelation`, and `unimplemented!`/index panics while recomputing a
projection schema); `some (.error e)` is a returned `Err`. -/
def ExecutionContext.create_execution_plan (ctx : ExecutionContext)
    (fs : FileSystem) : LogicalPlan → Option (Except ExecutionError SimpleRelation)
| .EmptyRelation => none
| .TableScan table_name schema =>
  match fs ("test/data/" ++ table_name ++ ".csv") with
  | none => some (.error (.IoError ("test/data/" ++ table_name ++ ".csv")))
  | some source => some (.ok (.Csv ⟨source, schema⟩))
| .CsvFile filename schema =>
  match fs filename with
  | none => some (.error (.IoError filename))
  | some source => some (.ok (.Csv ⟨source, schema⟩))
| .Selection expr input schema =>
  match ExecutionContext.create_execution_plan ctx fs input with
  | none => none
  | some (.error e) => some (.error e)
  | some (.ok input_rel) => some (.ok (.Filter schema input_rel expr))
| .Projection expr input _ =>
  match ExecutionContext.create_execution_plan ctx fs input with
  | none => none
  | some (.error e) => some (.error e)
  | some (.ok input_rel) =>
    match projectColumns input_rel.schema expr with
    | none => none
    | some project_columns =>
      some (.ok (.Project ⟨project_columns⟩ input_rel expr))
| .Limit limit input schema =>
  match ExecutionContext.create_execution_plan ctx fs input with
  | none => none
  | some (.error e) => some (.error e)
  | some (.ok input_rel) => some (.ok (.Limit schema input_rel limit))

/-! ## The client query surface (`DF`) -/

/-- Modelled from the spec (`dataframe.rs` is not under `src/`): the error
type of the client query surface. -/
inductive DataFrameError where
| InvalidColumn (name : String)

/-- `DF` from `src/exec.rs`: a query handle pairing a context snapshot
with a logical plan. -/
structure DF where
  ctx : ExecutionContext
  plan : LogicalPlan

/-- `DF::select` from `src/exec.rs`: wrap the plan in a `Projection` node
whose stored schema is the input plan's schema (`self.plan.schema()`),
not a schema derived from the selected expressions. -/
def DF.select (df : DF) (expr : List Expr) : Except DataFrameError DF :=
  .ok ⟨df.ctx, .Projection expr df.plan df.plan.schema⟩

/-- `DF::filter` from `src/exec.rs`. -/
def DF.filter (df : DF) (expr : Expr) : Except DataFrameError DF :=
  .ok ⟨df.ctx, .Selection expr df.plan df.plan.schema⟩

/-- `DF::schema` from `src/exec.rs`: report the plan's stored schema. -/
def DF.schema (df : DF) : Schema :=
  df.plan.schema

/-! ## Specification-side auxiliary definitions and sample data -/

/-- The variant tag a `Value` carries, as a `DataType`. -/
def tagOf : Value → DataType
| .UnsignedLong _ => .UnsignedLong
| .Double _ => .Double
| .String _ => .String
| .Boolean _ => .Boolean
| .ComplexValue _ => .ComplexType

/-- The row-retention predicate of the Filter operator, stated as a plain
boolean predicate on items: an error item passes; an `Ok` row is kept iff
its predicate evaluates to `Ok(Value::Boolean(true))`. -/
def filterKeep (ctx : ExecutionContext) (schema : Schema) (expr : Expr) :
    ScanItem → Bool
| .error _ => true
| .ok tuple =>
  match ctx.evaluate tuple schema expr with
  | some (.ok (.Boolean b)) => b
  | _ => false

/-- Sample schema `[id: UnsignedLong, name: String]`. -/
def peopleSchema : Schema :=
  ⟨[⟨"id", .UnsignedLong, false⟩, ⟨"name", .String, false⟩]⟩

/-- Sample row `1,alice`. -/
def aliceRow : Row := ⟨[.UnsignedLong 1, .String "alice"]⟩

/-- Sample row `2,bob`. -/
def bobRow : Row := ⟨[.UnsignedLong 2, .String "bob"]⟩

/-- Sample predicate `ColumnRef(0) > Literal(UnsignedLong(1))`. -/
def idGtOne : Expr := .BinaryExpr (.TupleValue 0) .Gt (.Literal (.UnsignedLong 1))

/-- A one-file filesystem for witnesses: `people.csv` opens as an empty
record stream; every other path fails to open. -/
def fs0 : FileSystem := fun name => if name = "people.csv" then some [] else none

/-! ## Helper lemmas -/

mutual

/-- The evaluator threads its schema argument through every recursive call
but never consults it: evaluation results agree for any two schemas. -/
theorem evaluate_tt_irrel (ctx : ExecutionContext) (tuple : Row) (s1 s2 : Schema) :
    ∀ e : Expr, ctx.evaluate tuple s1 e = ctx.evaluate tuple s2 e
| .TupleValue _ => rfl
| .Literal _ => rfl
| .BinaryExpr l op r => by
  simp only [ExecutionContext.evaluate]
  rw [evaluate_tt_irrel ctx tuple s1 s2 l, evaluate_tt_irrel ctx tuple s1 s2 r]
| .ScalarFunction name args => by
  simp only [ExecutionContext.evaluate]
  rw [evalArgs_tt_irrel ctx tuple s1 s2 args]

/-- Companion to `evaluate_tt_irrel` for argument lists. -/
theorem evalArgs_tt_irrel (ctx : ExecutionContext) (tuple : Row) (s1 s2 : Schema) :
    ∀ es : List Expr, ctx.evalArgs tuple s1 es = ctx.evalArgs tuple s2 es
| [] => rfl
| a :: rest => by
  simp only [ExecutionContext.evalArgs]
  rw [evaluate_tt_irrel ctx tuple s1 s2 a, evalArgs_tt_irrel ctx tuple s1 s2 rest]

end

/-- A successful per-field parse yields a value tagged exactly as the
field's declared type, and that type is one of the three the csv scan
supports. -/
theorem parseField_tag (c : Field) (s : String) (v : Value)
    (h : parseField c s = some v) :
    tagOf v = c.data_type ∧
    c.data_type ∈ [DataType.UnsignedLong, DataType.Double, DataType.String] := by
  cases hdt : c.data_type <;> rw [parseField, hdt] at h
  · obtain ⟨n, _, rfl⟩ := Option.map_eq_some'.mp h
    simp [tagOf, hdt]
  · cases h
    simp [tagOf, hdt]
  · obtain ⟨d, _, rfl⟩ := Option.map_eq_some'.mp h
    simp [tagOf, hdt]
  · cases h
  · cases h

/-- Characterisation of the zipped field-parse traversal: on equal-length
lists a success has one parsed value per column, in order. -/
theorem parseFields_spec : ∀ (cs : List Field) (ss : List String) (vs : List Value),
    parseFields cs ss = some vs → cs.length = ss.length →
    vs.length = cs.length ∧
    ∀ i (hc : i < cs.length) (hs : i < ss.length) (hv : i < vs.length),
      parseField cs[i] ss[i] = some vs[i]
| [], ss, vs => by
  intro h _
  obtain rfl : vs = [] := by
    cases ss <;> (simp only [parseFields] at h; exact (Option.some.inj h).symm)
  simp
| c :: cs, [], vs => by
  intro _ hlen
  simp at hlen
| c :: cs, s :: ss, vs => by
  intro h hlen
  rw [parseFields] at h
  cases hf : parseField c s with
  | none => rw [hf] at h; cases h
  | some v =>
    rw [hf] at h
    obtain ⟨vs', hrest, rfl⟩ := Option.map_eq_some'.mp h
    obtain ⟨hlen', hidx⟩ := parseFields_spec cs ss vs' hrest (by simpa using hlen)
    refine ⟨by simp [hlen'], fun i hc hs hv => ?_⟩
    cases i with
    | zero => simpa using hf
    | succ n =>
      simp only [List.getElem_cons_succ]
      exact hidx n (by simpa using hc) (by simpa using hs) (by simpa using hv)

/-! ## Claims -/

/-- C8: whenever `create_tuple` produces a row (the record's field count
and field texts match the scan's schema), the row has exactly one value
per schema column and each value carries the variant tag declared by the
schema field at its position — one of UnsignedLong, Double or String. -/
theorem create_tuple_values_match_schema (rel : CsvRelation) (r : StringRecord)
    (row : Row) (h : rel.create_tuple r = some row) :
    row.values.length = rel.schema.columns.length ∧
    ∀ i (hc : i < rel.schema.columns.length) (hv : i < row.values.length),
      tagOf row.values[i] = rel.schema.columns[i].data_type ∧
      rel.schema.columns[i].data_type ∈
        [DataType.UnsignedLong, DataType.Double, DataType.String] := by
  rw [CsvRelation.create_tuple] at h
  by_cases hlen : rel.schema.columns.length = r.length
  · rw [if_pos hlen] at h
    obtain ⟨vs, hp, hrow⟩ := Option.map_eq_some'.mp h
    obtain ⟨hvs, hidx⟩ := parseFields_spec rel.schema.columns r vs hp hlen
    subst hrow
    refine ⟨hvs, fun i hc hv => ?_⟩
    exact parseField_tag rel.schema.columns[i] r[i] vs[i]
      (hidx i hc (hlen ▸ hc) hv)
  · rw [if_neg hlen] at h
    cases h

/-- Witness for C8: a two-column unsigned/string schema over the record
`1,alice` produces a row of matching length and tags. -/
theorem create_tuple_values_match_schema_witness :
    CsvRelation.create_tuple
        ⟨[], ⟨[⟨"id", .UnsignedLong, false⟩, ⟨"name", .String, false⟩]⟩⟩
        ["1", "alice"]
      = some ⟨[.UnsignedLong 1, .String "alice"]⟩ ∧
    (Row.mk [.UnsignedLong 1, .String "alice"]).values.length
      = (Schema.mk [⟨"id", .UnsignedLong, false⟩, ⟨"name", .String, false⟩]).columns.length :=
  ⟨rfl,
   (create_tuple_values_match_schema
      ⟨[], ⟨[⟨"id", .UnsignedLong, false⟩, ⟨"name", .String, false⟩]⟩⟩
      ["1", "alice"] ⟨[.UnsignedLong 1, .String "alice"]⟩ rfl).1⟩

/-- Characterisation of the csv scan traversal: a completed scan has one
item per source record, each the `scanStep` image of that record. -/
theorem csv_scanRecords_spec (rel : CsvRelation) : ∀ (src : CsvSource) (out : List ScanItem),
    rel.scanRecords src = some out →
    out.length = src.length ∧
    ∀ i (hi : i < src.length) (ho : i < out.length),
      rel.scanStep src[i] = some out[i]
| [], out => by
  intro h
  simp only [CsvRelation.scanRecords] at h
  obtain rfl : out = [] := (Option.some.inj h).symm
  simp
| r :: rest, out => by
  intro h
  simp only [CsvRelation.scanRecords] at h
  cases hstep : rel.scanStep r with
  | none => rw [hstep] at h; cases h
  | some item =>
    rw [hstep] at h
    obtain ⟨out', hgo, rfl⟩ := Option.map_eq_some'.mp h
    obtain ⟨hlen, hidx⟩ := csv_scanRecords_spec rel rest out' hgo
    refine ⟨by simp [hlen], fun i hi ho => ?_⟩
    cases i with
    | zero => simpa using hstep
    | succ n =>
      simp only [List.getElem_cons_succ]
      exact hidx n (by simpa using hi) (by simpa using ho)

/-- C1: a completed scan over a backing source emits exactly one
Row-or-error per source record, in source order — a reader error at a
position becomes the `CsvError` item at that position, a record becomes
the `create_tuple` row at that position — and the output ends exactly
when the source is exhausted (equal lengths). -/
theorem csvScan_emits_one_item_per_record (rel : CsvRelation) (out : List ScanItem)
    (h : rel.scan = some out) :
    out.length = rel.source.length ∧
    ∀ i (hi : i < rel.source.length) (ho : i < out.length),
      (∀ e, rel.source[i] = .error e → out[i] = .error (.CsvError e)) ∧
      (∀ record, rel.source[i] = .ok record →
        ∃ row, rel.create_tuple record = some row ∧ out[i] = .ok row) := by
  obtain ⟨hlen, hidx⟩ := csv_scanRecords_spec rel rel.source out h
  refine ⟨hlen, fun i hi ho => ⟨fun e he => ?_, fun record hr => ?_⟩⟩
  · have := hidx i hi ho
    rw [he] at this
    simp only [CsvRelation.scanStep] at this
    exact (Option.some.inj this).symm
  · have := hidx i hi ho
    rw [hr] at this
    simp only [CsvRelation.scanStep] at this
    obtain ⟨row, hrow, hout⟩ := Option.map_eq_some'.mp this
    exact ⟨row, hrow, hout.symm⟩

/-- Witness for C1: a three-record source (two good records and one
reader error) scans to three items in order. -/
theorem csvScan_emits_one_item_per_record_witness :
    CsvRelation.scan
        ⟨[.ok ["1", "alice"], .error "bad", .ok ["2", "bob"]],
         ⟨[⟨"id", .UnsignedLong, false⟩, ⟨"name", .String, false⟩]⟩⟩
      = some [.ok ⟨[.UnsignedLong 1, .String "alice"]⟩,
              .error (.CsvError "bad"),
              .ok ⟨[.UnsignedLong 2, .String "bob"]⟩] ∧
    ([.ok ⟨[.UnsignedLong 1, .String "alice"]⟩,
      .error (.CsvError "bad"),
      .ok ⟨[.UnsignedLong 2, .String "bob"]⟩] : List ScanItem).length
      = ([.ok ["1", "alice"], .error "bad", .ok ["2", "bob"]] : CsvSource).length :=
  ⟨rfl,
   (csvScan_emits_one_item_per_record
      ⟨[.ok ["1", "alice"], .error "bad", .ok ["2", "bob"]],
       ⟨[⟨"id", .UnsignedLong, false⟩, ⟨"name", .String, false⟩]⟩⟩
      [.ok ⟨[.UnsignedLong 1, .String "alice"]⟩,
       .error (.CsvError "bad"),
       .ok ⟨[.UnsignedLong 2, .String "bob"]⟩] rfl).1⟩

/-- C9: the result of expression evaluation is independent of the schema
argument — for every row, expression and execution context, evaluating
under any two schemas returns the same value-or-error; the schema
parameter is never consulted by the evaluator. -/
theorem evaluate_ignores_schema (ctx : ExecutionContext) (tuple : Row)
    (s1 s2 : Schema) (e : Expr) :
    ctx.evaluate tuple s1 e = ctx.evaluate tuple s2 e :=
  evaluate_tt_irrel ctx tuple s1 s2 e

/-- A defined `filterStep` outcome agrees with the `filterKeep`
predicate. -/
theorem filterStep_keep (ctx : ExecutionContext) (s : Schema) (e : Expr)
    (t : ScanItem) (b : Bool) (h : filterStep ctx s e t = some b) :
    filterKeep ctx s e t = b := by
  cases t with
  | error err =>
    simp only [filterStep] at h
    simp only [filterKeep]
    exact Option.some.inj h
  | ok tuple =>
    simp only [filterStep] at h
    simp only [filterKeep]
    cases hev : ctx.evaluate tuple s e with
    | none => rw [hev] at h; cases h
    | some res =>
      rw [hev] at h
      cases res with
      | error e2 => simp at h
      | ok v =>
        cases v with
        | Boolean b2 => simpa using h
        | UnsignedLong n => simp at h
        | Double d => simp at h
        | String s2 => simp at h
        | ComplexValue vs => simp at h

/-- C2: a completed Filter pass returns exactly the input items the
retention predicate accepts, in input order — an `Ok` row survives iff
its predicate evaluated to the boolean value `true`, and every error item
of the input passes through unchanged. -/
theorem filterScan_keeps_exactly_true_rows (ctx : ExecutionContext)
    (schema : Schema) (expr : Expr) : ∀ (input out : List ScanItem),
    FilterRelation.scanList ctx schema expr input = some out →
    out = input.filter (filterKeep ctx schema expr)
| [], out => by
  intro h
  simp only [FilterRelation.scanList] at h
  obtain rfl : out = [] := (Option.some.inj h).symm
  simp
| t :: rest, out => by
  intro h
  simp only [FilterRelation.scanList] at h
  cases hstep : filterStep ctx schema expr t with
  | none => rw [hstep] at h; cases h
  | some b =>
    rw [hstep] at h
    have hk : filterKeep ctx schema expr t = b := filterStep_keep ctx schema expr t b hstep
    cases b with
    | true =>
      obtain ⟨out', hrest, rfl⟩ := Option.map_eq_some'.mp h
      have ih := filterScan_keeps_exactly_true_rows ctx schema expr rest out' hrest
      simp [List.filter_cons, hk, ih]
    | false =>
      have ih := filterScan_keeps_exactly_true_rows ctx schema expr rest out h
      simp [List.filter_cons, hk, ih]

/-- Witness for C2: over `1,alice` / `2,bob` / one error item, the
predicate `id > 1` keeps exactly the `2,bob` row and the error item. -/
theorem filterScan_keeps_exactly_true_rows_witness :
    FilterRelation.scanList ExecutionContext.new peopleSchema idGtOne
        [.ok aliceRow, .ok bobRow, .error (.Custom "x")]
      = some [.ok bobRow, .error (.Custom "x")] ∧
    ([.ok bobRow, .error (.Custom "x")] : List ScanItem)
      = ([.ok aliceRow, .ok bobRow, .error (.Custom "x")] : List ScanItem).filter
          (filterKeep ExecutionContext.new peopleSchema idGtOne) :=
  ⟨rfl,
   filterScan_keeps_exactly_true_rows ExecutionContext.new peopleSchema idGtOne
     [.ok aliceRow, .ok bobRow, .error (.Custom "x")]
     [.ok bobRow, .error (.Custom "x")] rfl⟩

/-- A defined fast-path projection of one expression agrees with the
general evaluator under every schema: the direct positional lookup for a
`TupleValue` returns what the evaluator returns, and every other
expression was evaluated (the schema handed to the evaluator being
irrelevant to the result). -/
theorem projectExpr_eval (ctx : ExecutionContext) (s : Schema) (tuple : Row)
    (e : Expr) (v : Value) (h : projectExpr ctx s tuple e = some v) :
    ∀ s2 : Schema, ctx.evaluate tuple s2 e = some (.ok v) := by
  intro s2
  cases e with
  | TupleValue i =>
    simp only [projectExpr] at h
    simp [ExecutionContext.evaluate, h]
  | Literal w =>
    simp only [projectExpr, ExecutionContext.evaluate] at h
    obtain rfl : w = v := by simpa using h
    simp [ExecutionContext.evaluate]
  | BinaryExpr l op r =>
    simp only [projectExpr] at h
    cases hev : ctx.evaluate tuple s (.BinaryExpr l op r) with
    | none => rw [hev] at h; cases h
    | some res =>
      rw [hev] at h
      cases res with
      | error e2 => simp at h
      | ok v2 =>
        obtain rfl : v2 = v := by simpa using h
        exact (evaluate_tt_irrel ctx tuple s2 s _).trans hev
  | ScalarFunction name args =>
    simp only [projectExpr] at h
    cases hev : ctx.evaluate tuple s (.ScalarFunction name args) with
    | none => rw [hev] at h; cases h
    | some res =>
      rw [hev] at h
      cases res with
      | error e2 => simp at h
      | ok v2 =>
        obtain rfl : v2 = v := by simpa using h
        exact (evaluate_tt_irrel ctx tuple s2 s _).trans hev

/-- Characterisation of a completed projection of one row: one value per
expression, each agreeing with the general evaluator under every
schema. -/
theorem projectExprs_eval (ctx : ExecutionContext) (s : Schema) (tuple : Row) :
    ∀ (es : List Expr) (vs : List Value),
    projectExprs ctx s tuple es = some vs →
    vs.length = es.length ∧
    ∀ j (hj : j < es.length) (hv : j < vs.length) (s2 : Schema),
      ctx.evaluate tuple s2 es[j] = some (.ok vs[j])
| [], vs => by
  intro h
  simp only [projectExprs] at h
  obtain rfl : vs = [] := (Option.some.inj h).symm
  simp
| e :: rest, vs => by
  intro h
  simp only [projectExprs] at h
  cases hpe : projectExpr ctx s tuple e with
  | none => rw [hpe] at h; cases h
  | some v =>
    rw [hpe] at h
    obtain ⟨vs', hrest, rfl⟩ := Option.map_eq_some'.mp h
    obtain ⟨hlen, hidx⟩ := projectExprs_eval ctx s tuple rest vs' hrest
    refine ⟨by simp [hlen], fun j hj hv s2 => ?_⟩
    cases j with
    | zero => simpa using projectExpr_eval ctx s tuple e v hpe s2
    | succ n =>
      simp only [List.getElem_cons_succ]
      exact hidx n (by simpa using hj) (by simpa using hv) s2

/-- C5: a completed Project pass has output cardinality equal to input
cardinality and preserves order; every error item passes through
unchanged; every `Ok` input row becomes an `Ok` output row with one value
per projection expression, and each output value equals what the general
evaluator returns for that expression on the input row under any schema —
in particular under the input's schema. -/
theorem projectScan_evaluates_under_any_schema (ctx : ExecutionContext)
    (own_schema : Schema) (exprs : List Expr) :
    ∀ (input out : List ScanItem),
    ProjectRelation.scanList ctx own_schema exprs input = some out →
    out.length = input.length ∧
    ∀ i (hi : i < input.length) (ho : i < out.length),
      (∀ e, input[i] = .error e → out[i] = .error e) ∧
      (∀ tuple, input[i] = .ok tuple →
        ∃ values, out[i] = .ok (Row.new values) ∧ values.length = exprs.length ∧
          ∀ j (hj : j < exprs.length) (hv : j < values.length) (input_schema : Schema),
            ctx.evaluate tuple input_schema exprs[j] = some (.ok values[j]))
| [], out => by
  intro h
  simp only [ProjectRelation.scanList] at h
  obtain rfl : out = [] := (Option.some.inj h).symm
  simp
| .ok tuple :: rest, out => by
  intro h
  simp only [ProjectRelation.scanList] at h
  cases hpe : projectExprs ctx own_schema tuple exprs with
  | none => rw [hpe] at h; cases h
  | some values =>
    rw [hpe] at h
    obtain ⟨out', hrest, rfl⟩ := Option.map_eq_some'.mp h
    obtain ⟨hlen, hidx⟩ :=
      projectScan_evaluates_under_any_schema ctx own_schema exprs rest out' hrest
    refine ⟨by simp [hlen], fun i hi ho => ?_⟩
    cases i with
    | zero =>
      refine ⟨fun e he => by simp at he, fun tuple2 ht => ?_⟩
      obtain rfl : tuple = tuple2 := by simpa using ht
      obtain ⟨hvlen, hval⟩ := projectExprs_eval ctx own_schema tuple exprs values hpe
      exact ⟨values, by simp [Row.new], hvlen, fun j hj hv s2 => hval j hj hv s2⟩
    | succ n =>
      simp only [List.getElem_cons_succ]
      exact hidx n (by simpa using hi) (by simpa using ho)
| .error e :: rest, out => by
  intro h
  simp only [ProjectRelation.scanList] at h
  obtain ⟨out', hrest, rfl⟩ := Option.map_eq_some'.mp h
  obtain ⟨hlen, hidx⟩ :=
    projectScan_evaluates_under_any_schema ctx own_schema exprs rest out' hrest
  refine ⟨by simp [hlen], fun i hi ho => ?_⟩
  cases i with
  | zero =>
    refine ⟨fun e2 he => by simpa using he, fun tuple2 ht => by simp at ht⟩
  | succ n =>
    simp only [List.getElem_cons_succ]
    exact hidx n (by simpa using hi) (by simpa using ho)

/-- Witness for C5: projecting `[ColumnRef(1)]` over `2,bob` plus an
error item yields the single-column row `bob` and passes the error
through, with output length equal to input length. -/
theorem projectScan_evaluates_under_any_schema_witness :
    ProjectRelation.scanList ExecutionContext.new peopleSchema [.TupleValue 1]
        [.ok bobRow, .error (.Custom "x")]
      = some [.ok ⟨[.String "bob"]⟩, .error (.Custom "x")] ∧
    ([.ok ⟨[.String "bob"]⟩, .error (.Custom "x")] : List ScanItem).length
      = ([.ok bobRow, .error (.Custom "x")] : List ScanItem).length :=
  ⟨rfl,
   (projectScan_evaluates_under_any_schema ExecutionContext.new peopleSchema
      [.TupleValue 1] [.ok bobRow, .error (.Custom "x")]
      [.ok ⟨[.String "bob"]⟩, .error (.Custom "x")] rfl).1⟩

/-- C3: the Limit operator with count `n` over an input of length `m`
yields exactly `min n m` items, in the original input order (position `i`
of the output is position `i` of the input); `n = 0` yields the empty
sequence; past the `n`-th item the sequence has ended regardless of
remaining input. -/
theorem limitScan_takes_min (n : Nat) (input : List ScanItem) :
    (LimitRelation.scanList n input).length = min n input.length ∧
    LimitRelation.scanList 0 input = [] ∧
    ∀ i : Nat, (LimitRelation.scanList n input)[i]? =
      if i < n then input[i]? else none := by
  refine ⟨?_, ?_, fun i => ?_⟩
  · simp [LimitRelation.scanList, List.length_take]
  · simp [LimitRelation.scanList]
  · simp [LimitRelation.scanList, List.getElem?_take]

/-- C10: `select` leaves the reported schema unchanged — the `Projection`
node it builds carries the input plan's schema, so the new handle's
`schema()` equals the old handle's `schema()`. -/
theorem select_preserves_reported_schema (df : DF) (exprs : List Expr) (df2 : DF)
    (h : df.select exprs = .ok df2) :
    df2.schema = df.schema ∧ df2.plan = .Projection exprs df.plan df.plan.schema := by
  have hd : df2 = ⟨df.ctx, .Projection exprs df.plan df.plan.schema⟩ := by
    simp only [DF.select, Except.ok.injEq] at h
    exact h.symm
  subst hd
  exact ⟨rfl, rfl⟩

/-- Witness for C10 at a concrete handle: selecting over a one-column csv
plan reports the original schema. -/
theorem select_preserves_reported_schema_witness :
    DF.select ⟨ExecutionContext.new, .CsvFile "f" ⟨[⟨"id", .UnsignedLong, false⟩]⟩⟩ [.TupleValue 0]
      = .ok ⟨ExecutionContext.new,
          .Projection [.TupleValue 0] (.CsvFile "f" ⟨[⟨"id", .UnsignedLong, false⟩]⟩)
            ⟨[⟨"id", .UnsignedLong, false⟩]⟩⟩ ∧
    DF.schema ⟨ExecutionContext.new,
        .Projection [.TupleValue 0] (.CsvFile "f" ⟨[⟨"id", .UnsignedLong, false⟩]⟩)
          ⟨[⟨"id", .UnsignedLong, false⟩]⟩⟩
      = DF.schema ⟨ExecutionContext.new, .CsvFile "f" ⟨[⟨"id", .UnsignedLong, false⟩]⟩⟩ :=
  ⟨rfl,
   (select_preserves_reported_schema
      ⟨ExecutionContext.new, .CsvFile "f" ⟨[⟨"id", .UnsignedLong, false⟩]⟩⟩
      [.TupleValue 0] _ rfl).1⟩

/-- Characterisation of the recomputed projection column list: one field
per expression, in order. -/
theorem projectColumns_spec (sch : Schema) : ∀ (es : List Expr) (cols : List Field),
    projectColumns sch es = some cols →
    cols.length = es.length ∧
    ∀ i (hi : i < es.length) (hc : i < cols.length),
      projectColumn sch es[i] = some cols[i]
| [], cols => by
  intro h
  simp only [projectColumns] at h
  obtain rfl : cols = [] := (Option.some.inj h).symm
  simp
| e :: rest, cols => by
  intro h
  simp only [projectColumns] at h
  cases hpc : projectColumn sch e with
  | none => rw [hpc] at h; cases h
  | some f =>
    rw [hpc] at h
    obtain ⟨cols', hrest, rfl⟩ := Option.map_eq_some'.mp h
    obtain ⟨hlen, hidx⟩ := projectColumns_spec sch rest cols' hrest
    refine ⟨by simp [hlen], fun i hi hc => ?_⟩
    cases i with
    | zero => simpa using hpc
    | succ n =>
      simp only [List.getElem_cons_succ]
      exact hidx n (by simpa using hi) (by simpa using hc)

/-- One unsupported expression anywhere in the list aborts the whole
column recomputation. -/
theorem projectColumns_none_of_mem (sch : Schema) :
    ∀ (es : List Expr) (e : Expr), e ∈ es → projectColumn sch e = none →
    projectColumns sch es = none
| [], e => by intro he _; cases he
| a :: rest, e => by
  intro he hnone
  simp only [projectColumns]
  rcases List.mem_cons.mp he with rfl | hmem
  · rw [hnone]
  · cases hpc : projectColumn sch a with
    | none => rfl
    | some f => rw [projectColumns_none_of_mem sch rest e hmem hnone]; rfl

/-- C4: compiling a `Projection` node recomputes the output schema from
the expressions, ignoring the schema stored on the node — the result is
the same for any two stored schemas; when the recomputation succeeds,
each `ColumnRef(i)` contributed the input schema's field at `i` and each
`ScalarFunctionCall` contributed a nullable field named after the
function with the fixed placeholder type `Double` (no registry lookup);
a `Literal` or `BinaryExpr` in the projection list makes compilation
fail fatally. -/
theorem projection_compile_recomputes_schema (ctx : ExecutionContext)
    (fs : FileSystem) (exprs : List Expr) (input : LogicalPlan) (s1 s2 : Schema)
    (input_rel : SimpleRelation)
    (h : ctx.create_execution_plan fs input = some (.ok input_rel)) :
    (ctx.create_execution_plan fs (.Projection exprs input s1)
      = ctx.create_execution_plan fs (.Projection exprs input s2)) ∧
    (∀ cols, projectColumns input_rel.schema exprs = some cols →
      ctx.create_execution_plan fs (.Projection exprs input s1)
        = some (.ok (.Project ⟨cols⟩ input_rel exprs)) ∧
      cols.length = exprs.length ∧
      ∀ i (hi : i < exprs.length) (hc : i < cols.length),
        (∀ j, exprs[i] = .TupleValue j →
          input_rel.schema.columns[j]? = some cols[i]) ∧
        (∀ name args, exprs[i] = .ScalarFunction name args →
          cols[i] = ⟨name, DataType.Double, true⟩)) ∧
    (∀ e, e ∈ exprs →
      ((∃ v, e = .Literal v) ∨ (∃ l op r, e = .BinaryExpr l op r)) →
      ctx.create_execution_plan fs (.Projection exprs input s1) = none) := by
  refine ⟨?_, fun cols hcols => ?_, fun e hmem hkind => ?_⟩
  · simp [ExecutionContext.create_execution_plan, h]
  · obtain ⟨hlen, hidx⟩ := projectColumns_spec input_rel.schema exprs cols hcols
    refine ⟨by simp [ExecutionContext.create_execution_plan, h, hcols], hlen,
      fun i hi hc => ⟨fun j hj => ?_, fun name args ha => ?_⟩⟩
    · have := hidx i hi hc
      rw [hj] at this
      simpa [projectColumn] using this
    · have := hidx i hi hc
      rw [ha] at this
      simpa [projectColumn] using this.symm
  · have hnone : projectColumn input_rel.schema e = none := by
      rcases hkind with ⟨v, rfl⟩ | ⟨l, op, r, rfl⟩ <;> rfl
    have := projectColumns_none_of_mem input_rel.schema exprs e hmem hnone
    simp [ExecutionContext.create_execution_plan, h, this]

/-- Witness for C4 at a concrete plan: over the csv input
`[id: UnsignedLong, name: String]`, projecting `[ColumnRef(1)]` compiles
to a Project operator whose recomputed schema is the single `name`
column, whatever schema the node stored; with a `Literal` expression
compilation panics. -/
theorem projection_compile_recomputes_schema_witness :
    ExecutionContext.new.create_execution_plan fs0
        (.Projection [.TupleValue 1] (.CsvFile "people.csv" peopleSchema) ⟨[]⟩)
      = some (.ok (.Project ⟨[⟨"name", .String, false⟩]⟩
          (.Csv ⟨[], peopleSchema⟩) [.TupleValue 1])) ∧
    ExecutionContext.new.create_execution_plan fs0
        (.Projection [.TupleValue 1] (.CsvFile "people.csv" peopleSchema) ⟨[]⟩)
      = ExecutionContext.new.create_execution_plan fs0
          (.Projection [.TupleValue 1] (.CsvFile "people.csv" peopleSchema) peopleSchema) ∧
    ExecutionContext.new.create_execution_plan fs0
        (.Projection [.Literal (.UnsignedLong 7)] (.CsvFile "people.csv" peopleSchema) ⟨[]⟩)
      = none := by
  refine ⟨?_, ?_, ?_⟩
  · exact ((projection_compile_recomputes_schema ExecutionContext.new fs0
      [.TupleValue 1] (.CsvFile "people.csv" peopleSchema) ⟨[]⟩ peopleSchema
      (.Csv ⟨[], peopleSchema⟩) rfl).2.1 [⟨"name", .String, false⟩] rfl).1
  · exact (projection_compile_recomputes_schema ExecutionContext.new fs0
      [.TupleValue 1] (.CsvFile "people.csv" peopleSchema) ⟨[]⟩ peopleSchema
      (.Csv ⟨[], peopleSchema⟩) rfl).1
  · exact (projection_compile_recomputes_schema ExecutionContext.new fs0
      [.Literal (.UnsignedLong 7)] (.CsvFile "people.csv" peopleSchema) ⟨[]⟩ peopleSchema
      (.Csv ⟨[], peopleSchema⟩) rfl).2.2 (.Literal (.UnsignedLong 7)) (by simp)
      (Or.inl ⟨.UnsignedLong 7, rfl⟩)

/-- Counterexample to C6 as stated: at concrete inputs, an
unknown-function failure and a failed invocation of a resolved function
(`sqrt` applied to a string) both surface as the `Custom` variant of
`ExecutionError` — the same error kind, not distinct kinds. -/
theorem scalarFunction_error_kinds_coincide_cex :
    ExecutionContext.new.evaluate ⟨[]⟩ ⟨[]⟩ (.ScalarFunction "nosuch" [])
      = some (.error (.Custom "Unknown function nosuch")) ∧
    ExecutionContext.new.evaluate ⟨[]⟩ ⟨[]⟩
        (.ScalarFunction "sqrt" [.Literal (.String "x")])
      = some (.error (.Custom "TBD")) ∧
    ExecutionError.kind (.Custom "Unknown function nosuch")
      = ExecutionError.kind (.Custom "TBD") :=
  ⟨rfl, rfl, rfl⟩

/-- C6 amended: both failure cases of a `ScalarFunctionCall` surface as
the same `ExecutionError::Custom` kind — an unknown name carries the
message `Unknown function {name}`, a failed invocation of a resolved
function carries the fixed message `TBD` — so the consumer can
distinguish them only by message text, which does always differ. -/
theorem scalarFunction_failures_same_kind (ctx : ExecutionContext) (tuple : Row)
    (tt : Schema) (name : String) (args : List Expr) (vals : List Value)
    (hargs : ctx.evalArgs tuple tt args = some (.ok vals)) :
    (lowerStr name ≠ "sqrt" → lowerStr name ≠ "st_point" → lowerStr name ≠ "st_astext" →
      ctx.evaluate tuple tt (.ScalarFunction name args)
        = some (.error (.Custom ("Unknown function " ++ name)))) ∧
    (∀ func msg, ctx.load_function_impl name = .ok func →
      func.execute vals = .error msg →
      ctx.evaluate tuple tt (.ScalarFunction name args)
        = some (.error (.Custom "TBD"))) ∧
    ExecutionError.kind (.Custom ("Unknown function " ++ name))
      = ExecutionError.kind (.Custom "TBD") ∧
    ("Unknown function " ++ name) ≠ "TBD" := by
  refine ⟨fun h1 h2 h3 => ?_, fun func msg hr hx => ?_, rfl, fun heq => ?_⟩
  · simp [ExecutionContext.evaluate, hargs, ExecutionContext.load_function_impl,
      h1, h2, h3]
  · simp [ExecutionContext.evaluate, hargs, hr, hx]
  · have hl := congrArg String.length heq
    rw [String.length_append] at hl
    rw [show ("Unknown function " : String).length = 17 from rfl,
        show ("TBD" : String).length = 3 from rfl] at hl
    omega

/-- Witness for the amended C6: the unknown name `nosuch` with no
arguments produces the `Custom("Unknown function nosuch")` error, and the
failed `sqrt` invocation path produces `Custom("TBD")`. -/
theorem scalarFunction_failures_same_kind_witness :
    ExecutionContext.new.evalArgs ⟨[]⟩ ⟨[]⟩ [] = some (.ok []) ∧
    ExecutionContext.new.evaluate ⟨[]⟩ ⟨[]⟩ (.ScalarFunction "nosuch" [])
      = some (.error (.Custom ("Unknown function " ++ "nosuch"))) ∧
    ExecutionContext.new.evaluate ⟨[]⟩ ⟨[]⟩
        (.ScalarFunction "sqrt" [.Literal (.String "x")])
      = some (.error (.Custom "TBD")) :=
  ⟨rfl,
   (scalarFunction_failures_same_kind ExecutionContext.new ⟨[]⟩ ⟨[]⟩ "nosuch"
      [] [] rfl).1 (by decide) (by decide) (by decide),
   (scalarFunction_failures_same_kind ExecutionContext.new ⟨[]⟩ ⟨[]⟩ "sqrt"
      [.Literal (.String "x")] [.String "x"] rfl).2.1
      SqrtFunction "unsupported arg type for sqrt" rfl rfl⟩

/-- C7: function resolution at evaluation time is a fixed compiled-in
lookup on the lower-cased name: it is independent of the context (in
particular of anything registered via `define_function`); any case
variant of the three built-in names resolves to the corresponding
built-in implementation, and every other name fails with the
unknown-function error. -/
theorem load_function_impl_fixed_builtin_table (ctx ctx2 : ExecutionContext)
    (func : ScalarFunctionImpl) (name : String) :
    ctx.load_function_impl name = ctx2.load_function_impl name ∧
    (ctx.define_function func).load_function_impl name = ctx.load_function_impl name ∧
    (lowerStr name = "sqrt" → ctx.load_function_impl name = .ok SqrtFunction) ∧
    (lowerStr name = "st_point" → ctx.load_function_impl name = .ok STPointFunc) ∧
    (lowerStr name = "st_astext" → ctx.load_function_impl name = .ok STAsText) ∧
    (lowerStr name ≠ "sqrt" → lowerStr name ≠ "st_point" → lowerStr name ≠ "st_astext" →
      ctx.load_function_impl name = .error (.Custom ("Unknown function " ++ name))) := by
  refine ⟨rfl, rfl, fun h => ?_, fun h => ?_, fun h => ?_, fun h1 h2 h3 => ?_⟩
  · simp [ExecutionContext.load_function_impl, h]
  · simp [ExecutionContext.load_function_impl, h]
  · simp [ExecutionContext.load_function_impl, h]
  · simp [ExecutionContext.load_function_impl, h1, h2, h3]

/-- Witness for C7 at concrete names: a case variant of each built-in
resolves to it even on a context with a registered function, and an
unregistered fourth name fails with the unknown-function error. -/
theorem load_function_impl_fixed_builtin_table_witness :
    (ExecutionContext.new.define_function SqrtFunction).load_function_impl "SQRT"
      = .ok SqrtFunction ∧
    ExecutionContext.new.load_function_impl "ST_Point" = .ok STPointFunc ∧
    ExecutionContext.new.load_function_impl "ST_AsText" = .ok STAsText ∧
    ExecutionContext.new.load_function_impl "nope"
      = .error (.Custom "Unknown function nope") := by
  refine ⟨?_, ?_, ?_, ?_⟩
  · exact (load_function_impl_fixed_builtin_table
      (ExecutionContext.new.define_function SqrtFunction) ExecutionContext.new
      SqrtFunction "SQRT").2.2.1 rfl
  · exact (load_function_impl_fixed_builtin_table
      ExecutionContext.new ExecutionContext.new SqrtFunction "ST_Point").2.2.2.1 rfl
  · exact (load_function_impl_fixed_builtin_table
      ExecutionContext.new ExecutionContext.new SqrtFunction "ST_AsText").2.2.2.2.1 rfl
  · exact (load_function_impl_fixed_builtin_table
      ExecutionContext.new ExecutionContext.new SqrtFunction "nope").2.2.2.2.2
      (by decide) (by decide) (by decide)

end DataFusion
